import Mathlib

/-!
Shallow embedding of the `tg_nhl_agent` daily-digest core (`contracts.py`,
`usecase.py`) together with a verification of its natural-language
specification.

Modelling conventions:
* Python `datetime` values are modelled at second granularity as a wall-clock
  reading (seconds counted from a fixed epoch) paired with an optional fixed
  UTC offset in seconds; `tz = none` models a naive datetime.
* `ZoneInfo(cfg.tz_msk)` is modelled as the fixed UTC offset stored in the
  configuration (`Europe/Moscow` is UTC+03:00 with no DST transitions), and a
  calendar date is modelled as its day number (wall seconds divided by 86400).
* Python `float` arithmetic is modelled with exact rationals.
* The weight dictionaries of `_index_rules` are modelled as
  `String → Option ℚ` lookup maps built by the same fold; the in-memory
  registry dict is modelled as an association list where the most recent
  write is found first, matching dict lookup semantics.
* Collaborators (ports) are explicit function records; the registry is
  state-passing so that the stateful `InMemoryPublicationRegistry` and pure
  stubs share one orchestrator definition. The orchestrator also returns the
  list of `publish` / `set_published` calls it made, in order, so that
  call-count properties can be stated.
* Python's stable `list.sort` is modelled by a stable insertion sort
  (stability, sortedness and being a permutation determine the output of any
  stable sort uniquely, so the two agree extensionally).
-/

set_option allowUnsafeReducibility true

-- Batteries marks the arithmetic on `Rat` irreducible only so that the
-- elaborator does not unfold it by accident; the kernel accepts unfolding it,
-- and concrete runs of the embedded pipeline below have to evaluate it.
attribute [semireducible] Rat.add Rat.mul Rat.inv Rat.sub Rat.ofScientific

namespace TgNhl

/-- Python `str.lower` (maps each character to lower case). -/
def pyLower (s : String) : String := ⟨s.data.map Char.toLower⟩

/-- Python `str.strip` on a character list: drop whitespace at both ends. -/
def stripChars (l : List Char) : List Char :=
  ((l.dropWhile Char.isWhitespace).reverse.dropWhile Char.isWhitespace).reverse

/-- Python `str.strip`. -/
def pyStrip (s : String) : String := ⟨stripChars s.data⟩

/-- Insert `a` into `l`, before the first element `b` with `le a b`; helper of
`stableSort`. -/
def insertLe (le : α → α → Bool) (a : α) : List α → List α
  | [] => [a]
  | b :: bs => if le a b then a :: b :: bs else b :: insertLe le a bs

/-- Stable sort by the comparison `le` (`le a b` = `a` may come before `b`).
Models Python's stable `list.sort`: an element is placed before a later one
exactly when `le` holds, and elements that compare equal keep their original
relative order. -/
def stableSort (le : α → α → Bool) : List α → List α
  | [] => []
  | a :: as => insertLe le a (stableSort le as)

/-- `Severity` from `contracts.py`. -/
inductive Severity where
  | warning
  | error
deriving DecidableEq, Repr

/-- `SourceSystem` from `contracts.py`. -/
inductive SourceSystem where
  | nhl
  | vk
  | tg
  | storage
  | core
deriving DecidableEq, Repr

/-- The `.value` string of a `SourceSystem` member. -/
def SourceSystem.value : SourceSystem → String
  | .nhl => "nhl"
  | .vk => "vk"
  | .tg => "tg"
  | .storage => "storage"
  | .core => "core"

/-- `VideoKind` from `contracts.py`. -/
inductive VideoKind where
  | highlights
  | full
deriving DecidableEq, Repr

/-- `VideoStatus` from `contracts.py`. -/
inductive VideoStatus where
  | found
  | not_found
  | error
deriving DecidableEq, Repr

/-- `AppError` from `contracts.py`; the `details` dict is an association
list. -/
structure AppError where
  code : String
  source : SourceSystem
  severity : Severity
  message : String
  details : Option (List (String × String)) := none
deriving DecidableEq, Repr

/-- `Team` from `contracts.py`. -/
structure Team where
  team_id : String
  name : String
  abbr : Option String := none
deriving DecidableEq, Repr

/-- A Python `datetime`: wall-clock seconds since the epoch in its own zone,
plus an optional fixed UTC offset in seconds (`none` = naive). -/
structure PyDateTime where
  wall : Int
  tz : Option Int := none
deriving DecidableEq, Repr

/-- `datetime.replace(tzinfo=timezone.utc)` on a naive datetime, identity on
an aware one — the normalisation `usecase.py` applies in several places. -/
def PyDateTime.toAware (d : PyDateTime) : PyDateTime :=
  if d.tz = none then { d with tz := some 0 } else d

/-- Absolute UTC reading of an aware datetime (naive treated as UTC, which is
only used after `toAware`). -/
def PyDateTime.absSecs (d : PyDateTime) : Int :=
  d.wall - (d.tz.getD 0)

/-- `MatchForScoring` from `contracts.py`. -/
structure MatchForScoring where
  match_id : String
  start_time_utc : PyDateTime
  season : String
  home : Team
  away : Team
  score_home : Int
  score_away : Int
  went_overtime : Option Bool := none
  went_shootout : Option Bool := none
deriving DecidableEq, Repr

/-- `PlayerGameStats` from `contracts.py`. -/
structure PlayerGameStats where
  match_id : String
  player_id : String
  player_name : String
  team_id : String
  goals : Int := 0
  assists : Int := 0
deriving DecidableEq, Repr

/-- `ScoringRule` from `contracts.py`. -/
structure ScoringRule where
  entity_type : String
  entity_id : String
  weight : ℚ
  label : Option String := none
deriving DecidableEq, Repr

/-- `ScoreContribution` from `contracts.py`. -/
structure ScoreContribution where
  reason : String
  weight : ℚ
  entity_type : Option String := none
  entity_id : Option String := none
deriving DecidableEq, Repr

/-- `MatchScore` from `contracts.py`. -/
structure MatchScore where
  match_id : String
  score : ℚ
  contributions : List ScoreContribution := []
deriving DecidableEq, Repr

/-- `RankedMatch` from `contracts.py`. -/
structure RankedMatch where
  mtch : MatchForScoring
  rank : MatchScore
deriving DecidableEq, Repr

/-- `VideoLinkResult` from `contracts.py`. -/
structure VideoLinkResult where
  match_id : String
  kind : VideoKind
  status : VideoStatus
  url : Option String := none
  error : Option AppError := none
  source : SourceSystem := .vk
deriving DecidableEq, Repr

/-- `PostItemPublic` from `contracts.py`. -/
structure PostItemPublic where
  match_id : String
  title : String
  start_time_utc : PyDateTime
  highlights_url : Option String := none
  full_url : Option String := none
  rank_score : Option ℚ := none
deriving DecidableEq, Repr

/-- `PostPublic` from `contracts.py`; `run_date_msk` is a day number. -/
structure PostPublic where
  run_date_msk : Int
  generated_at_utc : PyDateTime
  items : List PostItemPublic := []
  errors : List AppError := []
deriving DecidableEq, Repr

/-- `PublicationRecord` from `contracts.py`. -/
structure PublicationRecord where
  run_date_msk : Int
  published : Bool
  tg_message_id : Option String := none
  published_at_utc : Option PyDateTime := none
deriving DecidableEq, Repr

/-- `UsecaseConfig` from `usecase.py`. `tz_offset_secs` models the fixed UTC
offset of `ZoneInfo(tz_msk)`; `Europe/Moscow` is UTC+03:00. -/
structure UsecaseConfig where
  tz_offset_secs : Int := 3 * 3600
  publish_hour_msk : Int := 8
  lookback_hours : Int := 48
  min_interest_score : ℚ := 0
deriving DecidableEq, Repr

/-- Seconds in a day. -/
def daySecs : Int := 86400

/-- `compute_window` from `usecase.py`: run-date key (a local calendar day
number) and the UTC window `[anchor − lookback, anchor]` where the anchor is
`publish_hour_msk:00:00` of the reference instant's local calendar day,
moved back one day when the local reference time is before it. -/
def compute_window (now_utc : PyDateTime) (cfg : UsecaseConfig) :
    Int × PyDateTime × PyDateTime :=
  let now := now_utc.toAware
  let nowMskWall : Int := now.absSecs + cfg.tz_offset_secs
  -- `now_msk.replace(hour=cfg.publish_hour_msk, minute=0, second=0, microsecond=0)`
  let anchor0 : Int := nowMskWall - nowMskWall % daySecs + cfg.publish_hour_msk * 3600
  let anchorWall : Int := if nowMskWall < anchor0 then anchor0 - daySecs else anchor0
  let run_date : Int := anchorWall / daySecs
  let window_end_utc : PyDateTime := ⟨anchorWall - cfg.tz_offset_secs, some 0⟩
  let window_start_utc : PyDateTime :=
    ⟨anchorWall - cfg.lookback_hours * 3600 - cfg.tz_offset_secs, some 0⟩
  (run_date, window_start_utc, window_end_utc)

/-- The loop body of `_index_rules` from `usecase.py`: add one rule's weight
into the player or team dictionary, skipping unrecognized entity types. The
Python dicts are modelled as `String → Option ℚ` lookup maps; `dict.get`
returning the default is `Option.getD`. -/
def indexStep (acc : (String → Option ℚ) × (String → Option ℚ))
    (r : ScoringRule) : (String → Option ℚ) × (String → Option ℚ) :=
  let et := pyLower (pyStrip r.entity_type)
  if et = "player" then
    (fun k => if k = r.entity_id then some ((acc.1 r.entity_id).getD 0 + r.weight)
              else acc.1 k,
     acc.2)
  else if et = "team" then
    (acc.1,
     fun k => if k = r.entity_id then some ((acc.2 r.entity_id).getD 0 + r.weight)
              else acc.2 k)
  else acc

/-- `_index_rules` from `usecase.py`: fold the rules into two weight
dictionaries (player id → summed weight, team id → summed weight). -/
def _index_rules (rules : List ScoringRule) :
    (String → Option ℚ) × (String → Option ℚ) :=
  rules.foldl indexStep (fun _ => none, fun _ => none)

/-- The team-weight step of the scoring loop in `score_matches`
(`w = team_w.get(t.team_id); if w: ...` — `None` and `0.0` are both falsy). -/
def teamStep (team_w : String → Option ℚ) (acc : ℚ × List ScoreContribution)
    (t : Team) : ℚ × List ScoreContribution :=
  match team_w t.team_id with
  | none => acc
  | some w =>
    if w = 0 then acc
    else (acc.1 + w,
          acc.2 ++ [⟨"team_weight", w, some "team", some t.team_id⟩])

/-- The player-weight step of the scoring loop in `score_matches`. -/
def playerStep (player_w : String → Option ℚ) (acc : ℚ × List ScoreContribution)
    (ps : PlayerGameStats) : ℚ × List ScoreContribution :=
  match player_w ps.player_id with
  | none => acc
  | some w =>
    if w = 0 then acc
    else
      let factor : ℚ := (ps.goals : ℚ) + 0.5 * (ps.assists : ℚ)
      let delta := w * factor
      if delta ≠ 0 then
        (acc.1 + delta,
         acc.2 ++ [⟨"player_weight", delta, some "player", some ps.player_id⟩])
      else acc

/-- The body of the `for m in matches` loop of `score_matches`: score one
match. `stats_by_match.get(m.match_id, [])` is the stats rows of the match in
their original order, i.e. a filter of `player_stats`. -/
def score_one (player_w team_w : String → Option ℚ)
    (player_stats : List PlayerGameStats) (m : MatchForScoring) : RankedMatch :=
  let acc0 : ℚ × List ScoreContribution := (0, [])
  let acc1 := [m.home, m.away].foldl (teamStep team_w) acc0
  let acc2 := (player_stats.filter (fun ps => ps.match_id = m.match_id)).foldl
    (playerStep player_w) acc1
  let acc3 := if m.went_overtime = some true then
      (acc2.1 + 0.2, acc2.2 ++ [⟨"overtime_bonus", 0.2, none, none⟩])
    else acc2
  let acc4 := if m.went_shootout = some true then
      (acc3.1 + 0.2, acc3.2 ++ [⟨"shootout_bonus", 0.2, none, none⟩])
    else acc3
  let total_goals : Int := m.score_home + m.score_away
  let tg_bonus : ℚ := min 1 ((total_goals : ℚ) / 10) * 0.2
  let acc5 := if tg_bonus ≠ 0 then
      (acc4.1 + tg_bonus, acc4.2 ++ [⟨"total_goals_bonus", tg_bonus, none, none⟩])
    else acc4
  ⟨m, ⟨m.match_id, acc5.1, acc5.2⟩⟩

/-- The comparison of `ranked.sort(key=lambda rm: rm.rank.score, reverse=True)`:
`a` may come before `b` when its score is at least `b`'s. -/
def rankedLe (a b : RankedMatch) : Bool := decide (b.rank.score ≤ a.rank.score)

/-- `score_matches` from `usecase.py`: score every match, then sort by score
descending with Python's stable sort. -/
def score_matches (matches' : List MatchForScoring)
    (player_stats : List PlayerGameStats) (rules : List ScoringRule) :
    List RankedMatch :=
  let pw := _index_rules rules
  stableSort rankedLe (matches'.map (score_one pw.1 pw.2 player_stats))

/-- `_match_title` from `usecase.py`: `m.home.abbr or m.home.name` falls back
to the name also when the abbreviation is the empty string (Python truthiness). -/
def _match_title (m : MatchForScoring) : String :=
  let h := match m.home.abbr with
    | some a => if a = "" then m.home.name else a
    | none => m.home.name
  let a := match m.away.abbr with
    | some a => if a = "" then m.away.name else a
    | none => m.away.name
  h ++ " — " ++ a

/-- The lookup `vmap.get(rm.match.match_id, {}).get(kind)` of
`build_post_public`: the video index is built by insertion, so a later result
for the same match and kind overwrites an earlier one — the last matching
result wins. -/
def videoFor (video_results : List VideoLinkResult) (mid : String)
    (kind : VideoKind) : Option VideoLinkResult :=
  (video_results.filter (fun vr => vr.match_id = mid ∧ vr.kind = kind)).getLast?

/-- The url resolution of `build_post_public`:
`h.url if (h and h.status == VideoStatus.FOUND) else None`. -/
def urlIfFound : Option VideoLinkResult → Option String
  | some vr => if vr.status = .found then vr.url else none
  | none => none

/-- The error harvesting of `build_post_public`:
`if vr and vr.status == ERROR and vr.error: errors.append(vr.error)`. -/
def errIfError : Option VideoLinkResult → List AppError
  | some vr =>
    if vr.status = .error then
      match vr.error with
      | some e => [e]
      | none => []
    else []
  | none => []

/-- The body of the `for rm in ranked` loop of `build_post_public`. -/
def buildStep (video_results : List VideoLinkResult) (cfg : UsecaseConfig)
    (acc : List PostItemPublic × List AppError) (rm : RankedMatch) :
    List PostItemPublic × List AppError :=
  if rm.rank.score < cfg.min_interest_score then acc
  else
    let h := videoFor video_results rm.mtch.match_id .highlights
    let f := videoFor video_results rm.mtch.match_id .full
    (acc.1 ++ [⟨rm.mtch.match_id, _match_title rm.mtch, rm.mtch.start_time_utc,
               urlIfFound h, urlIfFound f, some rm.rank.score⟩],
     acc.2 ++ errIfError h ++ errIfError f)

/-- `build_post_public` from `usecase.py`. -/
def build_post_public (run_date_msk : Int) (now_utc : PyDateTime)
    (ranked : List RankedMatch) (video_results : List VideoLinkResult)
    (cfg : UsecaseConfig) (extra_errors : List AppError) : PostPublic :=
  let acc := ranked.foldl (buildStep video_results cfg) ([], extra_errors)
  ⟨run_date_msk, now_utc.toAware, acc.1, acc.2⟩

/-- The deduplication key of `render_post`: `(e.code, e.source.value, e.message)`. -/
def errKey (e : AppError) : String × String × String :=
  (e.code, e.source.value, e.message)

/-- The error line of `render_post`: `- [{source}] {code}: {message}`. -/
def errLine (k : String × String × String) : String :=
  "- [" ++ k.2.1 ++ "] " ++ k.1 ++ ": " ++ k.2.2

/-- The `for e in post.errors` loop of `render_post`: emit one line per error
whose key was not seen before, threading the `seen` set (modelled as the list
of keys added so far). -/
def errLinesLoop : List AppError → List (String × String × String) → List String
  | [], _ => []
  | e :: es, seen =>
    if errKey e ∈ seen then errLinesLoop es seen
    else errLine (errKey e) :: errLinesLoop es (errKey e :: seen)

/-- The three lines plus separator that `render_post` emits for one item. -/
def itemLines (it : PostItemPublic) : List String :=
  [it.title,
   (match it.highlights_url with
    | some u => if u = "" then "  highlights: ссылка не найдена"
                else "  highlights: " ++ u
    | none => "  highlights: ссылка не найдена"),
   (match it.full_url with
    | some u => if u = "" then "  full: ссылка не найдена" else "  full: " ++ u
    | none => "  full: ссылка не найдена"),
   ""]

/-- The `lines` list that `render_post` accumulates before joining. -/
def renderLines (post : PostPublic) : List String :=
  (if post.items = [] then ["Матчей нет."]
   else post.items.flatMap itemLines)
  ++ (if post.errors = [] then []
      else "⚠️ Проблемы:" :: errLinesLoop post.errors [])

/-- `render_post` from `usecase.py`: join the lines and strip the result. -/
def render_post (post : PostPublic) : String :=
  pyStrip (String.intercalate "\n" (renderLines post))

/-- An outward-going call the orchestrator makes; `run_daily_digest` returns
the list of these in order, so that call counts can be stated. -/
inductive Event where
  | publishCall (text : String)
  | setPublishedCall (rec : PublicationRecord)
deriving DecidableEq, Repr

/-- Whether an event is a `publish` call. -/
def Event.isPublish : Event → Bool
  | .publishCall _ => true
  | .setPublishedCall _ => false

/-- The collaborator ports of `usecase.py` (`ResultsLoader`,
`ScoringRulesLoader`, `VideoLoader`, `Publisher`, `PublicationRegistry`).
The registry is state-passing over `σ` so that the in-memory implementation
and stateless stubs share one orchestrator. -/
structure Ports (σ : Type) where
  results_load : PyDateTime → PyDateTime →
    List MatchForScoring × List PlayerGameStats × List AppError
  rules_load : List ScoringRule × List AppError
  video_load : List String → List VideoLinkResult × List AppError
  publish : String → Option String × List AppError
  registry_get : σ → Int → (Option PublicationRecord × List AppError) × σ
  registry_set : σ → PublicationRecord → List AppError × σ

/-- The `ALREADY_PUBLISHED` warning built in `run_daily_digest`. -/
def alreadyPublishedWarning (run_date_msk : Int) (rec : PublicationRecord) :
    AppError :=
  { code := "ALREADY_PUBLISHED"
    source := .core
    severity := .warning
    message := "Пост за " ++ toString run_date_msk ++ " уже был опубликован "
      ++ "(tg_message_id="
      ++ (match rec.tg_message_id with | some s => s | none => "None") ++ ")." }

/-- `run_daily_digest` after the idempotency gate (from `# load results` on).
Note the aliasing in the source's no-matches branch: the `PostPublic` built
there holds the very `errors` list object that the publish and registry
errors are later appended to, so the returned post carries the final list. -/
def run_rest {σ : Type} (now_utc : PyDateTime) (cfg : UsecaseConfig)
    (p : Ports σ) (run_date_msk : Int) (ws we : PyDateTime)
    (errors0 : List AppError) (s : σ) :
    (Option PostPublic × List AppError) × List Event × σ :=
  let lres := p.results_load ws we
  let errors1 := errors0 ++ lres.2.2
  if lres.1 = [] then
    let text := render_post ⟨run_date_msk, now_utc, [], errors1⟩
    let pres := p.publish text
    let rec0 : PublicationRecord := ⟨run_date_msk, true, pres.1, none⟩
    let sres := p.registry_set s rec0
    let errors2 := errors1 ++ pres.2 ++ sres.1
    ((some ⟨run_date_msk, now_utc, [], errors2⟩, errors2),
     [.publishCall text, .setPublishedCall rec0], sres.2)
  else
    let rres := p.rules_load
    let errors2 := errors1 ++ rres.2
    let ranked := score_matches lres.1 lres.2.1 rres.1
    let match_ids := (ranked.filter
      (fun rm => cfg.min_interest_score ≤ rm.rank.score)).map
      (fun rm => rm.mtch.match_id)
    let vres := p.video_load match_ids
    let errors3 := errors2 ++ vres.2
    let post := build_post_public run_date_msk now_utc ranked vres.1 cfg errors3
    let text := render_post post
    let pres := p.publish text
    let rec0 : PublicationRecord :=
      ⟨run_date_msk, true, pres.1, some now_utc.toAware⟩
    let sres := p.registry_set s rec0
    let errors4 := errors3 ++ pres.2 ++ sres.1
    ((some { post with errors := errors4 }, errors4),
     [.publishCall text, .setPublishedCall rec0], sres.2)

/-- `run_daily_digest` from `usecase.py`: window, idempotency gate, then the
rest of the pipeline (`run_rest`). -/
def run_daily_digest {σ : Type} (now_utc : PyDateTime) (cfg : UsecaseConfig)
    (p : Ports σ) (s : σ) :
    (Option PostPublic × List AppError) × List Event × σ :=
  let cw := compute_window now_utc cfg
  let g := p.registry_get s cw.1
  match g.1.1 with
  | some rec =>
    if rec.published then
      ((none, g.1.2 ++ [alreadyPublishedWarning cw.1 rec]), [], g.2)
    else run_rest now_utc cfg p cw.1 cw.2.1 cw.2.2 g.1.2 g.2
  | none => run_rest now_utc cfg p cw.1 cw.2.1 cw.2.2 g.1.2 g.2

/-- The store of `InMemoryPublicationRegistry`, a Python dict keyed by the run
date: an association list where the most recent write is found first. -/
abbrev RegStore : Type := List (Int × PublicationRecord)

/-- `InMemoryPublicationRegistry.get`. -/
def inMemory_get (s : RegStore) (d : Int) :
    (Option PublicationRecord × List AppError) × RegStore :=
  ((List.lookup d s, []), s)

/-- `InMemoryPublicationRegistry.set_published`. -/
def inMemory_set (s : RegStore) (r : PublicationRecord) :
    List AppError × RegStore :=
  ([], (r.run_date_msk, r) :: s)

/-- The stateless collaborators of a run (everything except the registry),
as pure functions. -/
structure PurePorts where
  results_load : PyDateTime → PyDateTime →
    List MatchForScoring × List PlayerGameStats × List AppError
  rules_load : List ScoringRule × List AppError
  video_load : List String → List VideoLinkResult × List AppError
  publish : String → Option String × List AppError

/-- Pure collaborators combined with the in-memory publication registry. -/
def withInMemory (pp : PurePorts) : Ports RegStore :=
  { results_load := pp.results_load
    rules_load := pp.rules_load
    video_load := pp.video_load
    publish := pp.publish
    registry_get := inMemory_get
    registry_set := inMemory_set }

/-- How many `publish` calls a trace holds. -/
def publishCount (evs : List Event) : Nat := evs.countP Event.isPublish

/-! ### Spec-side definitions

These follow the wording of the specification / claims, to be compared with
the definitions above, which follow the source. -/

/-- Spec side, for the scorer claim: the summed rule weight of a team
(absent entries sum to zero). -/
def specTeamWeight (rules : List ScoringRule) (tid : String) : ℚ :=
  ((rules.filter (fun r => pyLower (pyStrip r.entity_type) = "team"
      ∧ r.entity_id = tid)).map (fun r => r.weight)).sum

/-- Spec side, for the scorer claim: the summed rule weight of a player. -/
def specPlayerWeight (rules : List ScoringRule) (pid : String) : ℚ :=
  ((rules.filter (fun r => pyLower (pyStrip r.entity_type) = "player"
      ∧ r.entity_id = pid)).map (fun r => r.weight)).sum

/-- Spec side: the claimed score of a match — summed team weights of home and
away, plus `weight × (goals + 0.5 × assists)` over the match's stat rows,
plus `0.2` for overtime, `0.2` for a shootout, and `min(1, totalGoals/10) × 0.2`
for the combined final score. -/
def specMatchScore (player_stats : List PlayerGameStats)
    (rules : List ScoringRule) (m : MatchForScoring) : ℚ :=
  specTeamWeight rules m.home.team_id + specTeamWeight rules m.away.team_id
  + ((player_stats.filter (fun ps => ps.match_id = m.match_id)).map
      (fun ps => specPlayerWeight rules ps.player_id
        * ((ps.goals : ℚ) + 0.5 * (ps.assists : ℚ)))).sum
  + (if m.went_overtime = some true then 0.2 else 0)
  + (if m.went_shootout = some true then 0.2 else 0)
  + min 1 (((m.score_home + m.score_away : Int) : ℚ) / 10) * 0.2

/-- Spec side, for the renderer claim: first occurrence of each distinct key,
later duplicates dropped. -/
def dedupKeys : List (String × String × String) → List (String × String × String)
  | [] => []
  | k :: ks => k :: (dedupKeys ks).filter (fun k' => k' ≠ k)

/-- Spec side, for the spoiler-isolation claim: what rendering is allowed to
depend on in an item — its title and its two URLs. -/
def itemView (it : PostItemPublic) : String × Option String × Option String :=
  (it.title, it.highlights_url, it.full_url)

/-- Spec side, for the spoiler-isolation claim: the score-free part of a
ranked match — identity, teams, start time and the rank score (the rank score
is kept because it drives the threshold filter and ordering, not the text),
but not the spoiler fields `score_home` / `score_away`. -/
def rmView (rm : RankedMatch) : String × Team × Team × PyDateTime × ℚ :=
  (rm.mtch.match_id, rm.mtch.home, rm.mtch.away, rm.mtch.start_time_utc,
   rm.rank.score)

/-- Spec side, for the builder claim: a ranked match survives when its score
is at least the threshold. -/
def survives (cfg : UsecaseConfig) (rm : RankedMatch) : Bool :=
  decide (cfg.min_interest_score ≤ rm.rank.score)

/-- Spec side, for the builder claim: the public item of a surviving ranked
match. -/
def specItem (video_results : List VideoLinkResult) (rm : RankedMatch) :
    PostItemPublic :=
  ⟨rm.mtch.match_id, _match_title rm.mtch, rm.mtch.start_time_utc,
   urlIfFound (videoFor video_results rm.mtch.match_id .highlights),
   urlIfFound (videoFor video_results rm.mtch.match_id .full),
   some rm.rank.score⟩

/-- Spec side, for the builder claim: the errors a surviving ranked match
contributes (highlights result first, then the full-recording result). -/
def specItemErrors (video_results : List VideoLinkResult) (rm : RankedMatch) :
    List AppError :=
  errIfError (videoFor video_results rm.mtch.match_id .highlights)
  ++ errIfError (videoFor video_results rm.mtch.match_id .full)

/-! ### Concrete data: the worked example of the spec (the source's mock
loaders carry the same matches, stats and rules). -/

/-- Match `m1` of the spec's worked example. -/
def exampleM1 : MatchForScoring :=
  { match_id := "m1"
    start_time_utc := ⟨0, some 0⟩
    season := "2025-2026"
    home := ⟨"BOS", "Boston Bruins", some "BOS"⟩
    away := ⟨"NYR", "New York Rangers", some "NYR"⟩
    score_home := 4
    score_away := 3
    went_overtime := some true
    went_shootout := some false }

/-- Match `m2` of the spec's worked example. -/
def exampleM2 : MatchForScoring :=
  { match_id := "m2"
    start_time_utc := ⟨0, some 0⟩
    season := "2025-2026"
    home := ⟨"TOR", "Toronto Maple Leafs", some "TOR"⟩
    away := ⟨"MTL", "Montreal Canadiens", some "MTL"⟩
    score_home := 2
    score_away := 1
    went_overtime := some false
    went_shootout := some false }

/-- The stat rows of the worked example. -/
def exampleStats : List PlayerGameStats :=
  [⟨"m1", "p_1", "Star Player", "BOS", 2, 1⟩,
   ⟨"m2", "p_2", "Other Player", "TOR", 1, 0⟩]

/-- The rules of the worked example: team `BOS` weight `1.5`, player `p_1`
weight `2.0`. -/
def exampleRules : List ScoringRule :=
  [⟨"team", "BOS", 1.5, some "favorite team"⟩,
   ⟨"player", "p_1", 2.0, some "favorite player"⟩]

/-- Spec side, for the window claim: the local wall-clock reading of an aware
reference instant whose UTC offset is `off`, in the configured zone. -/
def specLocalWall (now : PyDateTime) (off : Int) (cfg : UsecaseConfig) : Int :=
  now.wall - off + cfg.tz_offset_secs

/-- Spec side: `publishHour:00:00` of the local calendar day of the local
reading `lw`. -/
def specAnchorBase (lw H : Int) : Int := lw / daySecs * daySecs + H * 3600

/-- Spec side: the anchor — `publishHour:00:00` of the reference instant's
local calendar day, shifted back one calendar day exactly when the local
reference time is earlier than it. -/
def specAnchor (lw H : Int) : Int :=
  if lw < specAnchorBase lw H then specAnchorBase lw H - daySecs
  else specAnchorBase lw H

/-! ### Concrete collaborators for closed runs -/

/-- Stateless collaborators mirroring the source's mock adapters
(`MockResultsLoader`, `MockScoringRulesLoader`, `MockVideoLoader`,
`StdoutPublisher`), with the worked-example data and fixed start times. -/
def mockPorts : PurePorts :=
  { results_load := fun _ _ => ([exampleM1, exampleM2], exampleStats, [])
    rules_load := (exampleRules, [])
    video_load := fun ids =>
      (ids.flatMap (fun mid =>
        [⟨mid, .highlights, .found,
          some ("https://vk.example/" ++ mid ++ "/highlights"), none, .vk⟩,
         ⟨mid, .full, .not_found, none, none, .vk⟩]), [])
    publish := fun _ => (some "mock_message_id", []) }

/-- A reference instant for closed runs: `06:00 UTC` (= `09:00 MSK`) of day 3. -/
def wNow : PyDateTime := ⟨3 * 86400 + 6 * 3600, some 0⟩

/-- A structured error embedded in an error-status video result. -/
def cxVideoError : AppError :=
  ⟨"VK_SEARCH_FAILED", .vk, .error, "search failed", none⟩

/-- An error-status video result for match `m1`, carrying `cxVideoError`. -/
def cxErrVr : VideoLinkResult :=
  ⟨"m1", .highlights, .error, none, some cxVideoError, .vk⟩

/-- Collaborators whose video lookup reports the error result `cxErrVr` for
match `m1` and whose other collaborators report no errors. -/
def cxPorts : PurePorts :=
  { results_load := fun _ _ => ([exampleM1], [], [])
    rules_load := ([], [])
    video_load := fun _ => ([cxErrVr], [])
    publish := fun _ => (some "msg-1", []) }

/-- Collaborators that report no matches, no rules, no videos and no errors. -/
def emptyPorts : PurePorts :=
  { results_load := fun _ _ => ([], [], [])
    rules_load := ([], [])
    video_load := fun _ => ([], [])
    publish := fun _ => (none, []) }

/-! ## Theorems -/

/-! ### The stable sort -/

theorem insertLe_perm (le : α → α → Bool) (a : α) (l : List α) :
    List.Perm (insertLe le a l) (a :: l) := by
  induction l with
  | nil => exact List.Perm.refl _
  | cons b bs ih =>
    unfold insertLe
    split
    · exact List.Perm.refl _
    · exact (ih.cons b).trans (List.Perm.swap a b bs)

theorem stableSort_perm (le : α → α → Bool) (l : List α) :
    List.Perm (stableSort le l) l := by
  induction l with
  | nil => exact List.Perm.refl _
  | cons a as ih => exact (insertLe_perm le a _).trans (ih.cons a)

theorem mem_insertLe {le : α → α → Bool} {a x : α} {l : List α}
    (h : x ∈ insertLe le a l) : x = a ∨ x ∈ l := by
  have := (insertLe_perm le a l).mem_iff.mp h
  simpa using this

theorem insertLe_pairwise {le : α → α → Bool}
    (htrans : ∀ a b c, le a b = true → le b c = true → le a c = true)
    (htotal : ∀ a b, le a b = true ∨ le b a = true)
    {a : α} {l : List α} (h : l.Pairwise (fun x y => le x y = true)) :
    (insertLe le a l).Pairwise (fun x y => le x y = true) := by
  induction l with
  | nil => simp [insertLe]
  | cons b bs ih =>
    rw [List.pairwise_cons] at h
    unfold insertLe
    split
    · rename_i hab
      rw [List.pairwise_cons]
      refine ⟨?_, List.pairwise_cons.mpr h⟩
      intro y hy
      rcases List.mem_cons.mp hy with rfl | hy
      · exact hab
      · exact htrans a b y hab (h.1 y hy)
    · rename_i hab
      have hba : le b a = true := by
        rcases htotal a b with h1 | h1
        · exact absurd h1 hab
        · exact h1
      rw [List.pairwise_cons]
      refine ⟨?_, ih h.2⟩
      intro y hy
      rcases mem_insertLe hy with rfl | hy
      · exact hba
      · exact h.1 y hy

theorem stableSort_pairwise {le : α → α → Bool}
    (htrans : ∀ a b c, le a b = true → le b c = true → le a c = true)
    (htotal : ∀ a b, le a b = true ∨ le b a = true) (l : List α) :
    (stableSort le l).Pairwise (fun x y => le x y = true) := by
  induction l with
  | nil => simp [stableSort]
  | cons a as ih => exact insertLe_pairwise htrans htotal ih

theorem filter_insertLe_pos {le : α → α → Bool} {p : α → Bool} {a : α}
    (l : List α) (hpa : p a = true)
    (hle : ∀ b, p b = true → le a b = true) :
    (insertLe le a l).filter p = a :: l.filter p := by
  induction l with
  | nil => simp [insertLe, hpa]
  | cons b bs ih =>
    unfold insertLe
    split
    · simp [hpa]
    · rename_i hab
      have hpb : p b = false := by
        cases hpbe : p b with
        | false => rfl
        | true => exact absurd (hle b hpbe) hab
      simp [List.filter_cons, hpb, ih]

theorem filter_insertLe_neg {le : α → α → Bool} {p : α → Bool} {a : α}
    (l : List α) (hpa : p a = false) :
    (insertLe le a l).filter p = l.filter p := by
  induction l with
  | nil => simp [insertLe, hpa]
  | cons b bs ih =>
    unfold insertLe
    split
    · simp [List.filter_cons, hpa]
    · simp [List.filter_cons, ih]

theorem stableSort_filter {le : α → α → Bool} {p : α → Bool}
    (h : ∀ a b, p a = true → p b = true → le a b = true) (l : List α) :
    (stableSort le l).filter p = l.filter p := by
  induction l with
  | nil => rfl
  | cons a as ih =>
    unfold stableSort
    cases hpa : p a with
    | true =>
      rw [filter_insertLe_pos _ hpa (fun b hb => h a b hpa hb), ih,
        List.filter_cons_of_pos hpa]
    | false =>
      rw [filter_insertLe_neg _ hpa, ih, List.filter_cons_of_neg (by simp [hpa])]

/-! ### Window claims -/

/-- C10: `compute_window` treats a naive reference datetime as UTC — its
result is the result for the same wall-clock reading with the UTC timezone
attached, so a naive input never fails and never shifts the window relative
to its UTC reading. -/
theorem compute_window_naive_utc (wall : Int) (cfg : UsecaseConfig) :
    compute_window ⟨wall, none⟩ cfg = compute_window ⟨wall, some 0⟩ cfg := rfl

/-- C5: for an aware reference instant and a valid configuration,
`compute_window` returns the anchor `publishHour:00:00` of the reference
instant's local calendar day (shifted back one day exactly when the local
reference time is earlier than it) as the window end, the window end minus
`lookback_hours` as the window start, and the anchor's local calendar day as
the run-date key; the window length is always `lookback_hours`. -/
theorem compute_window_spec (now : PyDateTime) (off : Int) (cfg : UsecaseConfig)
    (haware : now.tz = some off) (hH0 : 0 ≤ cfg.publish_hour_msk)
    (hH24 : cfg.publish_hour_msk < 24) :
    compute_window now cfg =
      (specAnchor (specLocalWall now off cfg) cfg.publish_hour_msk / daySecs,
       ⟨specAnchor (specLocalWall now off cfg) cfg.publish_hour_msk
          - cfg.lookback_hours * 3600 - cfg.tz_offset_secs, some 0⟩,
       ⟨specAnchor (specLocalWall now off cfg) cfg.publish_hour_msk
          - cfg.tz_offset_secs, some 0⟩)
    ∧ (compute_window now cfg).2.2.wall - (compute_window now cfg).2.1.wall
        = cfg.lookback_hours * 3600 := by
  have hnotnone : now.tz ≠ none := by rw [haware]; exact Option.some_ne_none off
  have haw : now.toAware = now := by
    unfold PyDateTime.toAware
    simp [hnotnone]
  have habs : now.absSecs = now.wall - off := by
    unfold PyDateTime.absSecs
    rw [haware]
    rfl
  constructor
  · simp only [compute_window, specAnchor, specAnchorBase, specLocalWall,
      daySecs, haw, habs]
    have hbase : now.wall - off + cfg.tz_offset_secs
          - (now.wall - off + cfg.tz_offset_secs) % 86400
        = (now.wall - off + cfg.tz_offset_secs) / 86400 * 86400 := by
      omega
    rw [hbase]
  · simp only [compute_window, daySecs, haw, habs]
    split <;> omega

/-! ### Renderer claims -/

theorem dedupKeys_nil : dedupKeys [] = [] := rfl

theorem dedupKeys_cons (k : String × String × String)
    (ks : List (String × String × String)) :
    dedupKeys (k :: ks) = k :: (dedupKeys ks).filter (fun k' => decide (k' ≠ k)) :=
  rfl

theorem dedupKeys_filter (M : List (String × String × String))
    (q : String × String × String → Bool) :
    (dedupKeys M).filter q = dedupKeys (M.filter q) := by
  induction M with
  | nil => rfl
  | cons m ms ih =>
    cases hq : q m with
    | true =>
      rw [dedupKeys_cons, List.filter_cons_of_pos hq,
        List.filter_cons_of_pos hq, dedupKeys_cons]
      congr 1
      rw [List.filter_filter, ← ih, List.filter_filter]
      exact List.filter_congr (fun x _ => Bool.and_comm _ _)
    | false =>
      rw [dedupKeys_cons, List.filter_cons_of_neg (by simp [hq]),
        List.filter_cons_of_neg (by simp [hq]), List.filter_filter, ← ih]
      exact List.filter_congr (fun x _ => by
        by_cases hxm : x = m
        · subst hxm; simp [hq]
        · simp [hxm])

theorem errLinesLoop_eq (es : List AppError) :
    ∀ seen : List (String × String × String),
      errLinesLoop es seen
        = (dedupKeys ((es.map errKey).filter
            (fun k => decide (k ∉ seen)))).map errLine := by
  induction es with
  | nil => intro seen; rfl
  | cons e es ih =>
    intro seen
    unfold errLinesLoop
    by_cases hmem : errKey e ∈ seen
    · rw [if_pos hmem, List.map_cons,
        List.filter_cons_of_neg (by simp [hmem]), ih]
    · have hfc : (((es.map errKey).filter
            (fun x => decide (x ∉ errKey e :: seen))))
          = ((es.map errKey).filter
            (fun x => decide (x ≠ errKey e) && decide (x ∉ seen))) :=
        List.filter_congr (fun x _ => by
          by_cases h1 : x = errKey e <;> by_cases h2 : x ∈ seen <;>
            simp [h1, h2])
      rw [if_neg hmem, List.map_cons,
        List.filter_cons_of_pos (by simp [hmem]), ih, hfc, dedupKeys_cons,
        List.map_cons, ← List.filter_filter, ← dedupKeys_filter]

theorem renderLines_structure (post : PostPublic) :
    renderLines post
      = (if post.items = [] then ["Матчей нет."]
         else post.items.flatMap itemLines)
        ++ (if post.errors = [] then []
            else "⚠️ Проблемы:" :: (dedupKeys (post.errors.map errKey)).map
              errLine) := by
  unfold renderLines
  congr 1
  by_cases he : post.errors = []
  · rw [if_pos he, if_pos he]
  · rw [if_neg he, if_neg he, errLinesLoop_eq]
    have hfilter : ((post.errors.map errKey).filter
          (fun k => decide (k ∉ ([] : List (String × String × String)))))
        = post.errors.map errKey := by
      simp
    rw [hfilter]

/-- C9: the renderer emits the dedicated no-matches line exactly when the
post has no items, and the error section holds the header followed by one
line per distinct `(code, origin, message)` triple, first occurrence first,
later duplicates dropped — in particular two errors sharing a key render a
single error line. -/
theorem render_post_dedup :
    (∀ post : PostPublic,
      renderLines post
        = (if post.items = [] then ["Матчей нет."]
           else post.items.flatMap itemLines)
          ++ (if post.errors = [] then []
              else "⚠️ Проблемы:" :: (dedupKeys (post.errors.map errKey)).map
                errLine))
    ∧ ∀ (e₁ e₂ : AppError) (rd : Int) (g : PyDateTime)
        (its : List PostItemPublic), errKey e₁ = errKey e₂ →
        renderLines ⟨rd, g, its, [e₁, e₂]⟩
          = (if its = [] then ["Матчей нет."] else its.flatMap itemLines)
            ++ ["⚠️ Проблемы:", errLine (errKey e₁)] := by
  refine ⟨renderLines_structure, ?_⟩
  intro e₁ e₂ rd g its h
  rw [renderLines_structure]
  congr 1
  rw [if_neg (by simp)]
  show _ :: (dedupKeys ([e₁, e₂].map errKey)).map errLine = _
  rw [List.map_cons, List.map_cons, List.map_nil, dedupKeys_cons,
    dedupKeys_cons, dedupKeys_nil]
  simp [← h]

/-- Witness for C9: two errors sharing `(code, origin, message)` but
differing in severity and details render a single error line. -/
theorem render_post_dedup_witness :
    renderLines ⟨0, ⟨0, some 0⟩, [],
        [⟨"NHL_TIMEOUT", .nhl, .warning, "t", none⟩,
         ⟨"NHL_TIMEOUT", .nhl, .error, "t", some []⟩]⟩
      = (if ([] : List PostItemPublic) = [] then ["Матчей нет."]
         else ([] : List PostItemPublic).flatMap itemLines)
        ++ ["⚠️ Проблемы:",
            errLine (errKey ⟨"NHL_TIMEOUT", .nhl, .warning, "t", none⟩)] :=
  render_post_dedup.2 ⟨"NHL_TIMEOUT", .nhl, .warning, "t", none⟩
    ⟨"NHL_TIMEOUT", .nhl, .error, "t", some []⟩ 0 ⟨0, some 0⟩ [] (by decide)

/-! ### Spoiler isolation -/

theorem itemLines_congr {a b : PostItemPublic} (h : itemView a = itemView b) :
    itemLines a = itemLines b := by
  cases a; cases b
  simp only [itemView, Prod.mk.injEq] at h
  obtain ⟨h1, h2, h3⟩ := h
  simp only [itemLines, h1, h2, h3]

theorem flatMap_itemLines_congr :
    ∀ l₁ l₂ : List PostItemPublic, l₁.map itemView = l₂.map itemView →
      l₁.flatMap itemLines = l₂.flatMap itemLines := by
  intro l₁
  induction l₁ with
  | nil =>
    intro l₂ h
    cases l₂ with
    | nil => rfl
    | cons b bs => simp at h
  | cons a as ih =>
    intro l₂ h
    cases l₂ with
    | nil => simp at h
    | cons b bs =>
      rw [List.map_cons, List.map_cons] at h
      injection h with h1 h2
      rw [List.flatMap_cons, List.flatMap_cons, itemLines_congr h1, ih bs h2]

theorem render_post_view {p₁ p₂ : PostPublic}
    (hi : p₁.items.map itemView = p₂.items.map itemView)
    (he : p₁.errors = p₂.errors) : render_post p₁ = render_post p₂ := by
  unfold render_post
  congr 1
  congr 1
  unfold renderLines
  rw [he]
  congr 1
  by_cases h1 : p₁.items = []
  · have h2 : p₂.items = [] := by
      rw [h1] at hi
      exact List.map_eq_nil_iff.mp hi.symm
    rw [if_pos h1, if_pos h2]
  · have h2 : ¬ p₂.items = [] := fun hc => h1 (by
      rw [hc] at hi
      exact List.map_eq_nil_iff.mp hi)
    rw [if_neg h1, if_neg h2]
    exact flatMap_itemLines_congr _ _ hi

theorem buildStep_view {v : List VideoLinkResult} {cfg : UsecaseConfig}
    {a b : RankedMatch} (h : rmView a = rmView b)
    {acc₁ acc₂ : List PostItemPublic × List AppError}
    (hi : acc₁.1.map itemView = acc₂.1.map itemView) (he : acc₁.2 = acc₂.2) :
    (buildStep v cfg acc₁ a).1.map itemView
        = (buildStep v cfg acc₂ b).1.map itemView
    ∧ (buildStep v cfg acc₁ a).2 = (buildStep v cfg acc₂ b).2 := by
  simp only [rmView, Prod.mk.injEq] at h
  obtain ⟨hid, hhome, haway, hstart, hscore⟩ := h
  unfold buildStep
  by_cases hth : a.rank.score < cfg.min_interest_score
  · rw [if_pos hth, if_pos (hscore ▸ hth)]
    exact ⟨hi, he⟩
  · rw [if_neg hth, if_neg (hscore ▸ hth)]
    have htitle : _match_title a.mtch = _match_title b.mtch := by
      unfold _match_title
      rw [hhome, haway]
    constructor
    · rw [List.map_append, List.map_append, hi]
      congr 1
      simp only [List.map_cons, List.map_nil, itemView, htitle, hid]
    · rw [he, hid]

theorem buildFoldl_view {v : List VideoLinkResult} {cfg : UsecaseConfig} :
    ∀ (r₁ r₂ : List RankedMatch)
      (acc₁ acc₂ : List PostItemPublic × List AppError),
      r₁.map rmView = r₂.map rmView →
      acc₁.1.map itemView = acc₂.1.map itemView → acc₁.2 = acc₂.2 →
      (r₁.foldl (buildStep v cfg) acc₁).1.map itemView
          = (r₂.foldl (buildStep v cfg) acc₂).1.map itemView
      ∧ (r₁.foldl (buildStep v cfg) acc₁).2
          = (r₂.foldl (buildStep v cfg) acc₂).2 := by
  intro r₁
  induction r₁ with
  | nil =>
    intro r₂ acc₁ acc₂ h hi he
    cases r₂ with
    | nil => exact ⟨hi, he⟩
    | cons b bs => simp at h
  | cons a as ih =>
    intro r₂ acc₁ acc₂ h hi he
    cases r₂ with
    | nil => simp at h
    | cons b bs =>
      rw [List.map_cons, List.map_cons] at h
      injection h with h1 h2
      rw [List.foldl_cons, List.foldl_cons]
      have hstep := @buildStep_view v cfg a b h1 acc₁ acc₂ hi he
      exact ih bs _ _ h2 hstep.1 hstep.2

/-- C3: the rendered text of a public post is a function only of the items'
titles and URLs and of the error entries — changing any item's `rank_score`
(or any other field outside that view) leaves the text unchanged — and the
rendered text of a built post is unchanged when the matches' spoiler fields
`score_home` / `score_away` change while identity, teams, start time and
rank score stay fixed; hence no score or goal value reaches the rendered
text. -/
theorem render_spoiler_isolation :
    (∀ p₁ p₂ : PostPublic, p₁.items.map itemView = p₂.items.map itemView →
      p₁.errors = p₂.errors → render_post p₁ = render_post p₂)
    ∧ ∀ (rd : Int) (now : PyDateTime) (r₁ r₂ : List RankedMatch)
        (v : List VideoLinkResult) (cfg : UsecaseConfig)
        (errs : List AppError), r₁.map rmView = r₂.map rmView →
        render_post (build_post_public rd now r₁ v cfg errs)
          = render_post (build_post_public rd now r₂ v cfg errs) := by
  refine ⟨fun p₁ p₂ hi he => render_post_view hi he, ?_⟩
  intro rd now r₁ r₂ v cfg errs h
  have hfold := @buildFoldl_view v cfg r₁ r₂ ([], errs)
    ([], errs) h rfl rfl
  exact render_post_view hfold.1 hfold.2

/-- Witness for C3: a post whose only difference is the diagnostic
`rank_score` of its item renders to the same text, and two builder inputs
differing only in the matches' final scores render to the same text. -/
theorem render_spoiler_isolation_witness :
    render_post ⟨3, ⟨0, some 0⟩,
        [⟨"m1", "BOS — NYR", ⟨0, some 0⟩, some "https://u", none, some 6.84⟩],
        []⟩
      = render_post ⟨3, ⟨0, some 0⟩,
        [⟨"m1", "BOS — NYR", ⟨0, some 0⟩, some "https://u", none, none⟩],
        []⟩
    ∧ render_post (build_post_public 3 ⟨0, some 0⟩
        [⟨exampleM1, ⟨"m1", 1, []⟩⟩] [] {} [])
      = render_post (build_post_public 3 ⟨0, some 0⟩
        [⟨{ exampleM1 with score_home := 9, score_away := 8 },
          ⟨"m1", 1, []⟩⟩] [] {} []) :=
  ⟨render_spoiler_isolation.1 _ _ (by decide) rfl,
   render_spoiler_isolation.2 3 ⟨0, some 0⟩ _ _ [] {} [] (by decide)⟩

/-! ### Public view builder -/

theorem buildFoldl_spec (v : List VideoLinkResult) (cfg : UsecaseConfig) :
    ∀ (l : List RankedMatch) (it0 : List PostItemPublic)
      (er0 : List AppError),
      l.foldl (buildStep v cfg) (it0, er0)
        = (it0 ++ (l.filter (survives cfg)).map (specItem v),
           er0 ++ (l.filter (survives cfg)).flatMap (specItemErrors v)) := by
  intro l
  induction l with
  | nil => intro it0 er0; simp
  | cons a as ih =>
    intro it0 er0
    rw [List.foldl_cons]
    by_cases hth : a.rank.score < cfg.min_interest_score
    · have hsurv : survives cfg a = false := by
        unfold survives
        simp only [decide_eq_false_iff_not, not_le]
        exact hth
      have hstep : buildStep v cfg (it0, er0) a = (it0, er0) := by
        unfold buildStep
        rw [if_pos hth]
      rw [hstep, ih, List.filter_cons_of_neg (by simp [hsurv])]
    · have hsurv : survives cfg a = true := by
        unfold survives
        simp only [decide_eq_true_eq, not_lt] at *
        exact hth
      have hstep : buildStep v cfg (it0, er0) a
          = (it0 ++ [specItem v a], er0 ++ specItemErrors v a) := by
        unfold buildStep specItem specItemErrors
        rw [if_neg hth]
        dsimp only
        rw [List.append_assoc]
      rw [hstep, ih, List.filter_cons_of_pos (by simp [hsurv]),
        List.map_cons, List.flatMap_cons]
      simp [List.append_assoc]

theorem videoFor_some_props {v : List VideoLinkResult} {mid : String}
    {k : VideoKind} {vr : VideoLinkResult} (h : videoFor v mid k = some vr) :
    vr ∈ v ∧ vr.match_id = mid ∧ vr.kind = k := by
  unfold videoFor at h
  have hmem := List.mem_of_getLast?_eq_some h
  have := List.mem_filter.mp hmem
  refine ⟨this.1, ?_, ?_⟩ <;>
    [exact (of_decide_eq_true this.2).1; exact (of_decide_eq_true this.2).2]

theorem videoFor_eq_some_of_mem {v : List VideoLinkResult}
    {vr : VideoLinkResult}
    (huniq : ∀ a ∈ v, ∀ b ∈ v, a.match_id = b.match_id → a.kind = b.kind →
      a = b) (hvr : vr ∈ v) : videoFor v vr.match_id vr.kind = some vr := by
  have hmemf : vr ∈ v.filter
      (fun x => decide (x.match_id = vr.match_id ∧ x.kind = vr.kind)) :=
    List.mem_filter.mpr ⟨hvr, by simp⟩
  have hne := List.ne_nil_of_mem hmemf
  have hsome := List.getLast?_isSome.mpr hne
  unfold videoFor
  cases hlast : (v.filter
      (fun x => decide (x.match_id = vr.match_id ∧ x.kind = vr.kind))).getLast?
    with
  | none => rw [hlast] at hsome; exact absurd hsome (by simp)
  | some last =>
    have hlm := List.mem_filter.mp (List.mem_of_getLast?_eq_some hlast)
    have hprops := of_decide_eq_true hlm.2
    rw [huniq last hlm.1 vr hvr hprops.1 hprops.2]

theorem urlIfFound_ne_none_iff {v : List VideoLinkResult}
    (huniq : ∀ a ∈ v, ∀ b ∈ v, a.match_id = b.match_id → a.kind = b.kind →
      a = b)
    (hfound : ∀ vr ∈ v, vr.status = .found → vr.url ≠ none)
    (mid : String) (k : VideoKind) :
    urlIfFound (videoFor v mid k) ≠ none
      ↔ ∃ vr ∈ v, vr.match_id = mid ∧ vr.kind = k ∧ vr.status = .found := by
  constructor
  · intro h
    cases hv : videoFor v mid k with
    | none => rw [hv] at h; exact absurd rfl h
    | some vr =>
      rw [hv] at h
      by_cases hst : vr.status = .found
      · obtain ⟨hm, hmid, hk⟩ := videoFor_some_props hv
        exact ⟨vr, hm, hmid, hk, hst⟩
      · have hnone : urlIfFound (some vr) = none := by
          simp only [urlIfFound]
          rw [if_neg hst]
        exact absurd hnone h
  · rintro ⟨vr, hmem, hmid, hk, hst⟩
    subst hmid
    subst hk
    rw [videoFor_eq_some_of_mem huniq hmem]
    have hu : urlIfFound (some vr) = vr.url := by
      simp only [urlIfFound]
      rw [if_pos hst]
    rw [hu]
    exact hfound vr hmem hst

/-- C8: `build_post_public` keeps exactly the ranked matches at or above the
threshold, in rank order, one item each; an item's highlight/full URL is
present iff the corresponding video result has status `found`; every
error-status video result of a surviving match contributes its embedded
error; and the output's error list is the caller's errors followed by the
video-derived ones, in that order. Hypotheses: the video results carry at
most one result per match and kind, and respect the `VideoLinkResult`
contract (`found` implies a URL, `error` implies an embedded error). -/
theorem build_post_public_spec (rd : Int) (now : PyDateTime)
    (ranked : List RankedMatch) (v : List VideoLinkResult)
    (cfg : UsecaseConfig) (errs : List AppError)
    (huniq : ∀ a ∈ v, ∀ b ∈ v, a.match_id = b.match_id → a.kind = b.kind →
      a = b)
    (hfound : ∀ vr ∈ v, vr.status = .found → vr.url ≠ none)
    (herr : ∀ vr ∈ v, vr.status = .error → vr.error ≠ none) :
    (build_post_public rd now ranked v cfg errs).items
        = (ranked.filter (survives cfg)).map (specItem v)
    ∧ (∀ rm : RankedMatch,
        ((specItem v rm).highlights_url ≠ none
          ↔ ∃ vr ∈ v, vr.match_id = rm.mtch.match_id ∧ vr.kind = .highlights
              ∧ vr.status = .found)
        ∧ ((specItem v rm).full_url ≠ none
          ↔ ∃ vr ∈ v, vr.match_id = rm.mtch.match_id ∧ vr.kind = .full
              ∧ vr.status = .found))
    ∧ (build_post_public rd now ranked v cfg errs).errors
        = errs ++ (ranked.filter (survives cfg)).flatMap (specItemErrors v)
    ∧ ∀ vr ∈ v, vr.status = .error →
        (∃ rm ∈ ranked, survives cfg rm = true
          ∧ rm.mtch.match_id = vr.match_id) →
        ∃ e, vr.error = some e
          ∧ e ∈ (build_post_public rd now ranked v cfg errs).errors := by
  have hbuild : build_post_public rd now ranked v cfg errs
      = ⟨rd, now.toAware,
         (ranked.filter (survives cfg)).map (specItem v),
         errs ++ (ranked.filter (survives cfg)).flatMap (specItemErrors v)⟩ := by
    unfold build_post_public
    rw [buildFoldl_spec]
    simp
  refine ⟨by rw [hbuild], ?_, by rw [hbuild], ?_⟩
  · intro rm
    exact ⟨urlIfFound_ne_none_iff huniq hfound _ _,
      urlIfFound_ne_none_iff huniq hfound _ _⟩
  · rintro vr hmem hst ⟨rm, hrm, hsurv, hmid⟩
    cases he : vr.error with
    | none => exact absurd he (herr vr hmem hst)
    | some e =>
      refine ⟨e, rfl, ?_⟩
      rw [hbuild]
      have hvf : videoFor v rm.mtch.match_id vr.kind = some vr := by
        rw [hmid]
        exact videoFor_eq_some_of_mem huniq hmem
      have hin : e ∈ specItemErrors v rm := by
        unfold specItemErrors
        cases hk : vr.kind with
        | highlights =>
          rw [hk] at hvf
          apply List.mem_append_left
          unfold errIfError
          rw [hvf]
          simp [hst, he]
        | full =>
          rw [hk] at hvf
          apply List.mem_append_right
          unfold errIfError
          rw [hvf]
          simp [hst, he]
      apply List.mem_append_right
      exact List.mem_flatMap.mpr ⟨rm,
        List.mem_filter.mpr ⟨hrm, by simp [hsurv]⟩, hin⟩

/-- Witness for C8, at the worked-example data with one found highlights
result and one errored full-recording result for `m1`. -/
theorem build_post_public_spec_witness :
    (build_post_public 3 ⟨0, some 0⟩
        [⟨exampleM1, ⟨"m1", 1, []⟩⟩, ⟨exampleM2, ⟨"m2", -1, []⟩⟩]
        [⟨"m1", .highlights, .found, some "https://u", none, .vk⟩,
         ⟨"m1", .full, .error, none, some cxVideoError, .vk⟩] {} []).items
      = ([⟨exampleM1, ⟨"m1", 1, []⟩⟩, ⟨exampleM2, ⟨"m2", -1, []⟩⟩].filter
          (survives {})).map (specItem
            [⟨"m1", .highlights, .found, some "https://u", none, .vk⟩,
             ⟨"m1", .full, .error, none, some cxVideoError, .vk⟩])
    ∧ (build_post_public 3 ⟨0, some 0⟩
        [⟨exampleM1, ⟨"m1", 1, []⟩⟩, ⟨exampleM2, ⟨"m2", -1, []⟩⟩]
        [⟨"m1", .highlights, .found, some "https://u", none, .vk⟩,
         ⟨"m1", .full, .error, none, some cxVideoError, .vk⟩] {} []).errors
      = [] ++ ([⟨exampleM1, ⟨"m1", 1, []⟩⟩, ⟨exampleM2, ⟨"m2", -1, []⟩⟩].filter
          (survives {})).flatMap (specItemErrors
            [⟨"m1", .highlights, .found, some "https://u", none, .vk⟩,
             ⟨"m1", .full, .error, none, some cxVideoError, .vk⟩]) := by
  have h := build_post_public_spec 3 ⟨0, some 0⟩
    [⟨exampleM1, ⟨"m1", 1, []⟩⟩, ⟨exampleM2, ⟨"m2", -1, []⟩⟩]
    [⟨"m1", .highlights, .found, some "https://u", none, .vk⟩,
     ⟨"m1", .full, .error, none, some cxVideoError, .vk⟩] {} []
    (by decide) (by decide) (by decide)
  exact ⟨h.1, h.2.2.1⟩

/-! ### Scorer and ranker claims -/

theorem rankedLe_trans (a b c : RankedMatch)
    (hab : rankedLe a b = true) (hbc : rankedLe b c = true) :
    rankedLe a c = true := by
  unfold rankedLe at *
  rw [decide_eq_true_iff] at *
  exact le_trans hbc hab

theorem rankedLe_total (a b : RankedMatch) :
    rankedLe a b = true ∨ rankedLe b a = true := by
  unfold rankedLe
  rcases le_total a.rank.score b.rank.score with h | h
  · right; exact decide_eq_true h
  · left; exact decide_eq_true h

theorem indexStep_fst_getD (acc : (String → Option ℚ) × (String → Option ℚ))
    (r : ScoringRule) (k : String) :
    ((indexStep acc r).1 k).getD 0
      = (acc.1 k).getD 0
        + (if pyLower (pyStrip r.entity_type) = "player" ∧ r.entity_id = k
           then r.weight else 0) := by
  unfold indexStep
  by_cases hp : pyLower (pyStrip r.entity_type) = "player"
  · by_cases hk : k = r.entity_id
    · subst hk
      simp [hp]
    · have hk' : ¬ r.entity_id = k := fun h => hk h.symm
      simp [hp, hk, hk']
  · by_cases ht : pyLower (pyStrip r.entity_type) = "team" <;> simp [hp, ht]

theorem indexStep_snd_getD (acc : (String → Option ℚ) × (String → Option ℚ))
    (r : ScoringRule) (k : String) :
    ((indexStep acc r).2 k).getD 0
      = (acc.2 k).getD 0
        + (if pyLower (pyStrip r.entity_type) = "team" ∧ r.entity_id = k
           then r.weight else 0) := by
  unfold indexStep
  by_cases hp : pyLower (pyStrip r.entity_type) = "player"
  · have hpt : ¬ pyLower (pyStrip r.entity_type) = "team" := by
      rw [hp]; intro h; exact absurd h (by decide)
    simp [hp, hpt]
  · by_cases ht : pyLower (pyStrip r.entity_type) = "team"
    · by_cases hk : k = r.entity_id
      · subst hk
        simp [hp, ht]
      · have hk' : ¬ r.entity_id = k := fun h => hk h.symm
        simp [hp, ht, hk, hk']
    · simp [hp, ht]

theorem specPlayerWeight_cons (r : ScoringRule) (rs : List ScoringRule)
    (k : String) :
    specPlayerWeight (r :: rs) k
      = (if pyLower (pyStrip r.entity_type) = "player" ∧ r.entity_id = k
         then r.weight else 0) + specPlayerWeight rs k := by
  unfold specPlayerWeight
  rw [List.filter_cons]
  split
  · rename_i h
    rw [List.map_cons, List.sum_cons]
    rw [if_pos (of_decide_eq_true h)]
  · rename_i h
    rw [if_neg (fun hc => h (decide_eq_true hc))]
    ring

theorem specTeamWeight_cons (r : ScoringRule) (rs : List ScoringRule)
    (k : String) :
    specTeamWeight (r :: rs) k
      = (if pyLower (pyStrip r.entity_type) = "team" ∧ r.entity_id = k
         then r.weight else 0) + specTeamWeight rs k := by
  unfold specTeamWeight
  rw [List.filter_cons]
  split
  · rename_i h
    rw [List.map_cons, List.sum_cons]
    rw [if_pos (of_decide_eq_true h)]
  · rename_i h
    rw [if_neg (fun hc => h (decide_eq_true hc))]
    ring

theorem foldl_indexStep (rules : List ScoringRule) :
    ∀ (acc : (String → Option ℚ) × (String → Option ℚ)) (k : String),
      (((rules.foldl indexStep acc).1 k).getD 0
          = (acc.1 k).getD 0 + specPlayerWeight rules k)
      ∧ (((rules.foldl indexStep acc).2 k).getD 0
          = (acc.2 k).getD 0 + specTeamWeight rules k) := by
  induction rules with
  | nil =>
    intro acc k
    constructor <;> simp [specPlayerWeight, specTeamWeight]
  | cons r rs ih =>
    intro acc k
    rw [List.foldl_cons]
    constructor
    · rw [(ih (indexStep acc r) k).1, indexStep_fst_getD, specPlayerWeight_cons]
      ring
    · rw [(ih (indexStep acc r) k).2, indexStep_snd_getD, specTeamWeight_cons]
      ring

theorem index_rules_fst_getD (rules : List ScoringRule) (k : String) :
    (((_index_rules rules).1 k).getD 0) = specPlayerWeight rules k := by
  have h := (foldl_indexStep rules (fun _ => none, fun _ => none) k).1
  unfold _index_rules
  rw [h]
  simp

theorem index_rules_snd_getD (rules : List ScoringRule) (k : String) :
    (((_index_rules rules).2 k).getD 0) = specTeamWeight rules k := by
  have h := (foldl_indexStep rules (fun _ => none, fun _ => none) k).2
  unfold _index_rules
  rw [h]
  simp

theorem teamStep_fst (tw : String → Option ℚ) (acc : ℚ × List ScoreContribution)
    (t : Team) : (teamStep tw acc t).1 = acc.1 + (tw t.team_id).getD 0 := by
  unfold teamStep
  cases h : tw t.team_id with
  | none => simp
  | some w =>
    by_cases hw : w = 0 <;> simp [hw]

theorem playerStep_fst (pw : String → Option ℚ)
    (acc : ℚ × List ScoreContribution) (s : PlayerGameStats) :
    (playerStep pw acc s).1
      = acc.1 + (pw s.player_id).getD 0
          * ((s.goals : ℚ) + 0.5 * (s.assists : ℚ)) := by
  unfold playerStep
  cases h : pw s.player_id with
  | none => simp
  | some w =>
    by_cases hw : w = 0
    · simp [hw]
    · by_cases hd : w * ((s.goals : ℚ) + 0.5 * (s.assists : ℚ)) = 0 <;>
        simp [hw, hd]

theorem foldl_playerStep (pw : String → Option ℚ) (l : List PlayerGameStats) :
    ∀ acc : ℚ × List ScoreContribution,
      (l.foldl (playerStep pw) acc).1
        = acc.1 + (l.map (fun s => (pw s.player_id).getD 0
            * ((s.goals : ℚ) + 0.5 * (s.assists : ℚ)))).sum := by
  induction l with
  | nil => intro acc; simp
  | cons s ss ih =>
    intro acc
    rw [List.foldl_cons, ih, playerStep_fst, List.map_cons, List.sum_cons]
    ring

theorem ite_pair_fst (c : Prop) [Decidable c] (x : ℚ × List ScoreContribution)
    (b : ℚ) (cl : List ScoreContribution) :
    (if c then (x.1 + b, cl) else x).1 = x.1 + (if c then b else 0) := by
  split <;> simp

theorem ite_self_of_ne (t : ℚ) : (if t ≠ 0 then t else 0) = t := by
  by_cases h : t = 0 <;> simp [h]

theorem score_one_score (rules : List ScoringRule)
    (ps : List PlayerGameStats) (m : MatchForScoring) :
    (score_one (_index_rules rules).1 (_index_rules rules).2 ps m).rank.score
      = specMatchScore ps rules m := by
  have hteam : (([m.home, m.away]).foldl (teamStep (_index_rules rules).2)
        ((0 : ℚ), ([] : List ScoreContribution))).1
      = specTeamWeight rules m.home.team_id
        + specTeamWeight rules m.away.team_id := by
    rw [List.foldl_cons, List.foldl_cons, List.foldl_nil, teamStep_fst,
      teamStep_fst, index_rules_snd_getD, index_rules_snd_getD]
    ring
  have hmap : ((ps.filter (fun s => s.match_id = m.match_id)).map
        (fun s => ((_index_rules rules).1 s.player_id).getD 0
          * ((s.goals : ℚ) + 0.5 * (s.assists : ℚ))))
      = ((ps.filter (fun s => s.match_id = m.match_id)).map
        (fun s => specPlayerWeight rules s.player_id
          * ((s.goals : ℚ) + 0.5 * (s.assists : ℚ)))) :=
    List.map_congr_left (fun s _ => by rw [index_rules_fst_getD])
  simp only [score_one]
  rw [ite_pair_fst, ite_pair_fst, ite_pair_fst, foldl_playerStep, hteam,
    hmap, ite_self_of_ne]
  unfold specMatchScore
  ring

/-- Witness for C5 at a concrete aware instant (`04:00 UTC = 07:00 MSK` of
day 3, before the publish hour) and the default configuration. -/
theorem compute_window_spec_witness :
    compute_window ⟨3 * 86400 + 4 * 3600, some 0⟩ {} =
      (specAnchor (specLocalWall ⟨3 * 86400 + 4 * 3600, some 0⟩ 0 {}) 8 / daySecs,
       ⟨specAnchor (specLocalWall ⟨3 * 86400 + 4 * 3600, some 0⟩ 0 {}) 8
          - 48 * 3600 - 3 * 3600, some 0⟩,
       ⟨specAnchor (specLocalWall ⟨3 * 86400 + 4 * 3600, some 0⟩ 0 {}) 8
          - 3 * 3600, some 0⟩) :=
  (compute_window_spec ⟨3 * 86400 + 4 * 3600, some 0⟩ 0 {} rfl (by decide)
    (by decide)).1

/-- C6: `score_matches` yields one scored entry per input match whose score
is the claimed sum (team weights, weighted player stats, overtime and
shootout bonuses, capped total-goals bonus), and on the spec's worked example
it yields score `6.84` for `m1`, `0.06` for `m2` and ranked order
`[m1, m2]`. -/
theorem score_matches_spec (ms : List MatchForScoring)
    (ps : List PlayerGameStats) (rs : List ScoringRule) :
    List.Perm ((score_matches ms ps rs).map (fun rm => (rm.mtch, rm.rank.score)))
      (ms.map (fun m => (m, specMatchScore ps rs m)))
    ∧ (score_matches [exampleM1, exampleM2] exampleStats exampleRules).map
        (fun rm => (rm.mtch.match_id, rm.rank.score))
      = [("m1", 6.84), ("m2", 0.06)] := by
  constructor
  · have hperm := (stableSort_perm rankedLe
      (ms.map (score_one (_index_rules rs).1 (_index_rules rs).2 ps))).map
      (fun rm => (rm.mtch, rm.rank.score))
    refine hperm.trans ?_
    rw [List.map_map]
    have heq : (ms.map ((fun rm => (rm.mtch, rm.rank.score))
          ∘ score_one (_index_rules rs).1 (_index_rules rs).2 ps))
        = ms.map (fun m => (m, specMatchScore ps rs m)) :=
      List.map_congr_left (fun m _ => by
        show ((score_one (_index_rules rs).1 (_index_rules rs).2 ps m).mtch,
            (score_one (_index_rules rs).1 (_index_rules rs).2 ps m).rank.score)
          = (m, specMatchScore ps rs m)
        rw [score_one_score]
        rfl)
    rw [heq]
  · decide

/-- C7: the ranking at the end of `score_matches` is a permutation of the
scored matches, sorted by non-increasing score, and stable — for every score
value, the entries carrying that score appear in the same relative order as
the input matches did. -/
theorem score_matches_ranking (ms : List MatchForScoring)
    (ps : List PlayerGameStats) (rs : List ScoringRule) :
    List.Perm (score_matches ms ps rs)
        (ms.map (score_one (_index_rules rs).1 (_index_rules rs).2 ps))
    ∧ (score_matches ms ps rs).Pairwise
        (fun a b => b.rank.score ≤ a.rank.score)
    ∧ ∀ s : ℚ, (score_matches ms ps rs).filter
          (fun rm => decide (rm.rank.score = s))
        = (ms.map (score_one (_index_rules rs).1 (_index_rules rs).2 ps)).filter
          (fun rm => decide (rm.rank.score = s)) := by
  refine ⟨stableSort_perm _ _, ?_, ?_⟩
  · have h := stableSort_pairwise rankedLe_trans rankedLe_total
      (ms.map (score_one (_index_rules rs).1 (_index_rules rs).2 ps))
    have : score_matches ms ps rs
        = stableSort rankedLe
          (ms.map (score_one (_index_rules rs).1 (_index_rules rs).2 ps)) := rfl
    rw [this]
    exact h.imp (fun hab => by
      have := of_decide_eq_true hab
      exact this)
  · intro s
    exact stableSort_filter (fun a b ha hb => by
      have ha' := of_decide_eq_true ha
      have hb' := of_decide_eq_true hb
      unfold rankedLe
      rw [ha', hb']
      exact decide_eq_true le_rfl) _

/-! ### Orchestrator claims -/

theorem run_rest_shape {σ : Type} (now : PyDateTime) (cfg : UsecaseConfig)
    (p : Ports σ) (rd : Int) (ws we : PyDateTime) (errs0 : List AppError)
    (s : σ) :
    ∃ text rec post,
      rec.run_date_msk = rd ∧ rec.published = true
      ∧ run_rest now cfg p rd ws we errs0 s
          = ((some post, post.errors),
             [.publishCall text, .setPublishedCall rec],
             (p.registry_set s rec).2) := by
  simp only [run_rest]
  split
  · exact ⟨_, _, _, rfl, rfl, rfl⟩
  · exact ⟨_, _, _, rfl, rfl, rfl⟩

theorem run_rest_inMemory (pp : PurePorts) (now : PyDateTime)
    (cfg : UsecaseConfig) (rd : Int) (ws we : PyDateTime)
    (errs0 : List AppError) (s : RegStore) :
    ∃ text rec post,
      rec.run_date_msk = rd ∧ rec.published = true
      ∧ run_rest now cfg (withInMemory pp) rd ws we errs0 s
          = ((some post, post.errors),
             [.publishCall text, .setPublishedCall rec], (rd, rec) :: s) := by
  obtain ⟨text, rec, post, hrd, hpub, heq⟩ :=
    run_rest_shape now cfg (withInMemory pp) rd ws we errs0 s
  refine ⟨text, rec, post, hrd, hpub, ?_⟩
  rw [heq]
  simp [withInMemory, inMemory_set, hrd]

/-- C1: when the registry already holds a published record for the run-date
key, `run_daily_digest` makes no publish and no `set_published` call, returns
no post, and appends exactly one `ALREADY_PUBLISHED` warning to the returned
error list; and two runs for the same run-date key against a persisting
in-memory registry make exactly one `publish` call in total, the second run
ending with the `ALREADY_PUBLISHED` warning. -/
theorem run_daily_digest_idempotency :
    (∀ (σ : Type) (p : Ports σ) (s : σ) (now : PyDateTime)
        (cfg : UsecaseConfig) (rec : PublicationRecord),
      (p.registry_get s (compute_window now cfg).1).1.1 = some rec →
      rec.published = true →
      run_daily_digest now cfg p s
        = ((none, (p.registry_get s (compute_window now cfg).1).1.2
            ++ [alreadyPublishedWarning (compute_window now cfg).1 rec]),
           [], (p.registry_get s (compute_window now cfg).1).2)
      ∧ (alreadyPublishedWarning (compute_window now cfg).1 rec).code
          = "ALREADY_PUBLISHED"
      ∧ (alreadyPublishedWarning (compute_window now cfg).1 rec).severity
          = .warning)
    ∧ ∀ (pp : PurePorts) (s0 : RegStore) (now₁ now₂ : PyDateTime)
        (cfg : UsecaseConfig),
      (compute_window now₂ cfg).1 = (compute_window now₁ cfg).1 →
      (∀ rec, List.lookup (compute_window now₁ cfg).1 s0 = some rec →
        rec.published = false) →
      publishCount (run_daily_digest now₁ cfg (withInMemory pp) s0).2.1 = 1
      ∧ publishCount (run_daily_digest now₂ cfg (withInMemory pp)
          (run_daily_digest now₁ cfg (withInMemory pp) s0).2.2).2.1 = 0
      ∧ (run_daily_digest now₂ cfg (withInMemory pp)
          (run_daily_digest now₁ cfg (withInMemory pp) s0).2.2).1.1 = none
      ∧ ∃ w, (run_daily_digest now₂ cfg (withInMemory pp)
            (run_daily_digest now₁ cfg (withInMemory pp) s0).2.2).1.2 = [w]
          ∧ w.code = "ALREADY_PUBLISHED" ∧ w.severity = .warning := by
  constructor
  · intro σ p s now cfg rec hget hpub
    refine ⟨?_, rfl, rfl⟩
    simp only [run_daily_digest]
    rw [hget]
    simp [hpub]
  · intro pp s0 now₁ now₂ cfg hkey hstart
    obtain ⟨text, rec1, post1, hrd, hpub, heq⟩ :=
      run_rest_inMemory pp now₁ cfg (compute_window now₁ cfg).1
        (compute_window now₁ cfg).2.1 (compute_window now₁ cfg).2.2 [] s0
    have hrun1 : run_daily_digest now₁ cfg (withInMemory pp) s0
        = run_rest now₁ cfg (withInMemory pp) (compute_window now₁ cfg).1
            (compute_window now₁ cfg).2.1 (compute_window now₁ cfg).2.2
            [] s0 := by
      simp only [run_daily_digest, withInMemory, inMemory_get]
      cases hl : List.lookup (compute_window now₁ cfg).1 s0 with
      | none => rfl
      | some rec =>
        have hf := hstart rec hl
        simp [hf]
    have hl2 : List.lookup (compute_window now₂ cfg).1
        (((compute_window now₁ cfg).1, rec1) :: s0) = some rec1 := by
      rw [hkey]
      simp [List.lookup]
    have hrun2 : run_daily_digest now₂ cfg (withInMemory pp)
          (((compute_window now₁ cfg).1, rec1) :: s0)
        = ((none, [alreadyPublishedWarning (compute_window now₂ cfg).1 rec1]),
           [], ((compute_window now₁ cfg).1, rec1) :: s0) := by
      simp only [run_daily_digest, withInMemory, inMemory_get]
      rw [hl2]
      simp [hpub]
    rw [hrun1, heq]
    refine ⟨rfl, ?_, ?_, ?_⟩
    · rw [hrun2]
      rfl
    · rw [hrun2]
    · rw [hrun2]
      exact ⟨alreadyPublishedWarning (compute_window now₂ cfg).1 rec1,
        rfl, rfl, rfl⟩

/-- Witness for C1: a first run with the mock collaborators publishes once;
an immediate second run for the same day publishes nothing. -/
theorem run_daily_digest_idempotency_witness :
    publishCount (run_daily_digest wNow {} (withInMemory mockPorts) []).2.1 = 1
    ∧ publishCount (run_daily_digest wNow {} (withInMemory mockPorts)
        (run_daily_digest wNow {} (withInMemory mockPorts) []).2.2).2.1 = 0 := by
  have h := run_daily_digest_idempotency.2 mockPorts [] wNow wNow {} rfl
    (fun rec hrec => by simp [List.lookup] at hrec)
  exact ⟨h.1, h.2.1⟩

theorem run_rest_post_errors {σ : Type} {now : PyDateTime}
    {cfg : UsecaseConfig} {p : Ports σ} {rd : Int} {ws we : PyDateTime}
    {errs0 : List AppError} {s : σ} {post : PostPublic}
    {errs : List AppError} {evs : List Event} {s' : σ}
    (h : run_rest now cfg p rd ws we errs0 s = ((some post, errs), evs, s')) :
    post.errors = errs := by
  simp only [run_rest] at h
  split at h
  all_goals
    simp only [Prod.mk.injEq, Option.some.injEq] at h
    obtain ⟨⟨hpost, herrs⟩, -⟩ := h
    rw [← hpost, ← herrs]

/-- C2 (amended): whenever `run_daily_digest` returns a post, the post's
`errors` field equals the returned accumulated error list. (The structured
errors embedded in error-status video results are only in the post that was
rendered and published, not in the returned one — see the counterexample.) -/
theorem run_daily_digest_post_errors {σ : Type} (p : Ports σ) (s : σ)
    (now : PyDateTime) (cfg : UsecaseConfig) (post : PostPublic)
    (errs : List AppError) (evs : List Event) (s' : σ)
    (h : run_daily_digest now cfg p s = ((some post, errs), evs, s')) :
    post.errors = errs := by
  simp only [run_daily_digest] at h
  cases hg : (p.registry_get s (compute_window now cfg).1).1.1 with
  | some rec =>
    rw [hg] at h
    by_cases hp : rec.published
    · simp [hp] at h
    · simp only [hp, Bool.false_eq_true, if_false] at h
      exact run_rest_post_errors h
  | none =>
    rw [hg] at h
    exact run_rest_post_errors h

/-- Counterexample for C2: a run whose video lookup reports an error-status
result with an embedded error for the surviving match `m1` returns a post
whose error list does not contain that embedded error. -/
theorem run_daily_digest_drops_embedded_video_error :
    cxErrVr.status = .error ∧ cxErrVr.error = some cxVideoError
    ∧ ((run_daily_digest wNow {} (withInMemory cxPorts) []).1.1.map
        (fun post => (post.items.map (fun it => it.match_id),
                      decide (cxVideoError ∈ post.errors))))
      = some (["m1"], false) := by
  refine ⟨rfl, rfl, ?_⟩
  decide

/-- Witness for C2 (amended), on the no-matches path with empty
collaborators. -/
theorem run_daily_digest_post_errors_witness :
    (⟨3, wNow, [], []⟩ : PostPublic).errors = [] :=
  run_daily_digest_post_errors (withInMemory emptyPorts) [] wNow {}
    ⟨3, wNow, [], []⟩ [] [.publishCall "Матчей нет.",
      .setPublishedCall ⟨3, true, none, none⟩]
    [(3, ⟨3, true, none, none⟩)] (by decide)

/-- C4: with no published record for the key and a results loader returning
zero matches, `run_daily_digest` returns a post with an empty item list,
publishes exactly once — the rendered empty post — and calls `set_published`
with a record carrying the computed run-date key and `published = true`. -/
theorem run_daily_digest_no_matches {σ : Type} (p : Ports σ) (s : σ)
    (now : PyDateTime) (cfg : UsecaseConfig)
    (hgate : ∀ rec, (p.registry_get s (compute_window now cfg).1).1.1
      = some rec → rec.published = false)
    (hempty : (p.results_load (compute_window now cfg).2.1
      (compute_window now cfg).2.2).1 = []) :
    ∃ post msg,
      run_daily_digest now cfg p s
        = ((some post, post.errors),
           [.publishCall (render_post ⟨(compute_window now cfg).1, now, [],
              (p.registry_get s (compute_window now cfg).1).1.2
                ++ (p.results_load (compute_window now cfg).2.1
                    (compute_window now cfg).2.2).2.2⟩),
            .setPublishedCall ⟨(compute_window now cfg).1, true, msg, none⟩],
           (p.registry_set (p.registry_get s (compute_window now cfg).1).2
             ⟨(compute_window now cfg).1, true, msg, none⟩).2)
      ∧ post.items = []
      ∧ publishCount (run_daily_digest now cfg p s).2.1 = 1 := by
  have hrun : run_daily_digest now cfg p s
      = run_rest now cfg p (compute_window now cfg).1
          (compute_window now cfg).2.1 (compute_window now cfg).2.2
          (p.registry_get s (compute_window now cfg).1).1.2
          (p.registry_get s (compute_window now cfg).1).2 := by
    simp only [run_daily_digest]
    cases hg : (p.registry_get s (compute_window now cfg).1).1.1 with
    | none => rfl
    | some rec =>
      have hf := hgate rec hg
      simp [hf]
  rw [hrun]
  simp only [run_rest]
  rw [if_pos hempty]
  exact ⟨_, _, rfl, rfl, rfl⟩

/-- Witness for C4 with empty collaborators: the no-matches run still
publishes exactly once. -/
theorem run_daily_digest_no_matches_witness :
    publishCount (run_daily_digest wNow {}
      (withInMemory emptyPorts) []).2.1 = 1 := by
  obtain ⟨post, msg, -, -, hcount⟩ :=
    run_daily_digest_no_matches (withInMemory emptyPorts) [] wNow {}
      (fun rec hrec => by simp [withInMemory, inMemory_get, List.lookup] at hrec)
      rfl
  exact hcount

end TgNhl
